import Mathlib

/-!
Shallow embedding of the `collect_lic_info` tool (Rust), covering:
- `src/types.rs`: the data model (`DepsEntry`, `PackageJson`, `PackageInfo`).
- `src/deps/go_deps.rs` and `src/deps/js_deps.rs`: directory scanning with
  exclusion filtering and the two manifest parsers.
- `src/report/mod.rs`: repository-URL extraction (`REPO_REGEX`), license
  extraction (`LICENSE_REGEX`), per-dependency enrichment and the two
  report orchestrators.

Modelling conventions:
- Rust `HashMap<String, DepsEntry>` accumulators become `DepMap := String →
  Option DepsEntry`; `HashMap::insert` is pointwise update.  A JSON object's
  map is modelled by its iteration sequence, a `List (String × String)`
  (keys of a parsed JSON object are unique, but no theorem assumes this
  unless stated).
- Compiled regular expressions supplied by the user (`exclude`/`skip`
  patterns) are abstracted as `String → Bool` matchers; the two fixed
  regexes of `report/mod.rs` are embedded concretely with backtracking
  (greedy, leftmost) capture semantics.
- The network is a function `String → Option (Nat × String)`: `none` is a
  transport error, `some (status, payload)` a response (payload = final URL
  after redirects for plain GETs, body text for the license-page fetch).
- `report/constants.rs` is not part of the sources; the `LICENSE_FILES`
  list it provides is passed as a parameter (no claim depends on its
  contents), and the header row it feeds is outside the modelled cells.
-/

/-- `types.rs`: `DepsEntry { name, version }`. -/
structure DepsEntry where
  name : String
  version : String
deriving DecidableEq

/-- `types.rs`: `PackageJson` — two optional maps, `dependencies` and
`peerDependencies` (serde-renamed), each modelled by its entry sequence. -/
structure PackageJson where
  dependencies : Option (List (String × String))
  peer_dependencies : Option (List (String × String))
deriving DecidableEq

/-- `types.rs`: `PackageRepo { url }`. -/
structure PackageRepo where
  url : String
deriving DecidableEq

/-- `types.rs`: `PakageBugs { url }` (source spelling kept). -/
structure PakageBugs where
  url : String
deriving DecidableEq

/-- `types.rs`: `PackageInfo` — registry response shape. -/
structure PackageInfo where
  name : String
  version : String
  license : String
  homepage : String
  bugs : PakageBugs
  repository : PackageRepo
deriving DecidableEq

/-- The accumulated dependency mapping (`HashMap<String, DepsEntry>`). -/
abbrev DepMap := String → Option DepsEntry

/-- `HashMap::insert(name, entry)`: pointwise update of the mapping. -/
def insertDep (m : DepMap) (k : String) (e : DepsEntry) : DepMap :=
  fun q => if q = k then some e else m q

/-- Rust `s.starts_with('.')` on a file name. -/
def hiddenName (s : String) : Bool :=
  match s.data with
  | [] => false
  | c :: _ => c = '.'

/-- Rust `version.strip_prefix("^")` folded with its `match`: remove one
leading caret if present, otherwise keep the string. -/
def stripCaret (v : String) : String :=
  match v.data with
  | [] => v
  | c :: cs => if c = '^' then String.mk cs else v

/-- `js_deps.rs` `should_skip_dependency`: any skip pattern matches the name. -/
def shouldSkipDependency (skip : List (String → Bool)) (name : String) : Bool :=
  skip.any (fun p => p name)

/-- `js_deps.rs` `process_dependencies`, translated statement by statement:
`let Some(deps) = &package_json.dependencies else { return Ok(()) }` is an
early return, so when `dependencies` is absent the peer-dependency loop is
never reached.  The `dependencies` loop strips a leading caret and skips
names matching a skip pattern; the `peerDependencies` loop stores versions
verbatim with the same skip filter. -/
def processDependencies (skip : List (String → Bool)) (pj : PackageJson)
    (m : DepMap) : DepMap :=
  match pj.dependencies with
  | none => m
  | some deps =>
    let m1 := deps.foldl
      (fun acc p =>
        if shouldSkipDependency skip p.1 then acc
        else insertDep acc p.1 ⟨p.1, stripCaret p.2⟩) m
    match pj.peer_dependencies with
    | none => m1
    | some peers => peers.foldl
        (fun acc p =>
          if shouldSkipDependency skip p.1 then acc
          else insertDep acc p.1 ⟨p.1, p.2⟩) m1

/-- A directory tree: the filesystem input of the scanners. -/
inductive FsTree where
  | file (name : String)
  | dir (name : String) (children : List FsTree)

/-- One `walkdir::DirEntry`: path components from the walk root (the entry's
own name last), the entry's file name, and its file type. -/
structure DirEntry where
  path : List String
  name : String
  isDir : Bool
deriving DecidableEq

/-- `entry.path().to_str()`: the path components joined with `/`. -/
def pathString (l : List String) : String :=
  String.intercalate "/" l

mutual
/-- `WalkDir::new(root)` recursive traversal: yields every entry, the root
included, descending into every directory (the source filters entries only
after they are yielded — it never prunes descent). -/
def walkDir (pre : List String) : FsTree → List DirEntry
  | .file n => [⟨pre ++ [n], n, false⟩]
  | .dir n cs => ⟨pre ++ [n], n, true⟩ :: walkDirList (pre ++ [n]) cs
/-- Traversal of a directory's children, in order. -/
def walkDirList (pre : List String) : List FsTree → List DirEntry
  | [] => []
  | t :: ts => walkDir pre t ++ walkDirList pre ts
end

/-- `go_deps.rs` `is_valid_go_mod`: reject directories and hidden names,
then reject excluded full paths, then require the base name `go.mod`. -/
def isValidGoMod (excl : List (String → Bool)) (e : DirEntry) : Bool :=
  if e.isDir || hiddenName e.name then false
  else if excl.any (fun p => p (pathString e.path)) then false
  else e.name == "go.mod"

/-- `js_deps.rs` `is_valid_package_json`: same shape with `package.json`. -/
def isValidPackageJson (excl : List (String → Bool)) (e : DirEntry) : Bool :=
  if e.isDir || hiddenName e.name then false
  else if excl.any (fun p => p (pathString e.path)) then false
  else e.name == "package.json"

/-- The discovery part of `GoParser::parse`: walk the tree and keep the
entries accepted by `is_valid_go_mod`. -/
def goModFiles (excl : List (String → Bool)) (t : FsTree) : List DirEntry :=
  (walkDir [] t).filter (isValidGoMod excl)

/-- The discovery part of `JsParser::parse`: walk the tree and keep the
entries accepted by `is_valid_package_json`. -/
def packageJsonFiles (excl : List (String → Bool)) (t : FsTree) : List DirEntry :=
  (walkDir [] t).filter (isValidPackageJson excl)

/-- One parsed `go.mod` directive (`gomod_rs::Directive`): only `Require`
blocks matter to `extract_dependencies`. -/
inductive GoDirective where
  | require (specs : List (String × String))
  | other
deriving DecidableEq

/-- `go_deps.rs` `extract_dependencies`: for every `Require` block, insert
each `(name, version)` spec into the accumulated mapping. -/
def extractDependencies (ds : List GoDirective) (m : DepMap) : DepMap :=
  ds.foldl
    (fun acc d =>
      match d with
      | .require specs =>
        specs.foldl (fun a p => insertDep a p.1 ⟨p.1, p.2⟩) acc
      | .other => acc) m

/-- The accumulation loop of `GoParser::parse` over the parsed files, in
processing order, starting from the empty mapping. -/
def goParseFiles (files : List (List GoDirective)) : DepMap :=
  files.foldl (fun m f => extractDependencies f m) (fun _ => none)

/-- The character class `[a-z#\.]` of `REPO_REGEX`. -/
def repoClassChar (c : Char) : Bool :=
  (decide ('a' ≤ c) && decide (c ≤ 'z')) || c == '#' || c == '.'

/-- Backtracking for the tail `(.*)\.[a-z#\.]*$` of `REPO_REGEX`: the greedy
`(.*)` picks the last `.` whose entire remaining suffix lies in the class;
the returned list is the capture (the part before that dot). -/
def repoCapTail : List Char → Option (List Char)
  | [] => none
  | c :: rest =>
    match repoCapTail rest with
    | some a => some (c :: a)
    | none => if c = '.' && rest.all repoClassChar then some [] else none

/-- Backtracking for the head `^.*:` of `REPO_REGEX`: the greedy `.*` picks
the last `:` after which the tail pattern still matches. -/
def repoColonSplit : List Char → Option (List Char)
  | [] => none
  | c :: rest =>
    match repoColonSplit rest with
    | some a => some a
    | none => if c = ':' then repoCapTail rest else none

/-- `REPO_REGEX` = `^.*:(.*)\.[a-z#\.]*$` applied by `captures`: anchored at
both ends, so matching searches no other start position; returns capture
group 1. -/
def repoRegexCapture (s : String) : Option String :=
  match repoColonSplit s.data with
  | some l => some (String.mk l)
  | none => none

/-- The candidate URL built at `report/mod.rs:131`:
`format!("https:{}", &captures[1])` after a successful `REPO_REGEX` match. -/
def repoCandidate (rawUrl : String) : Option String :=
  match repoRegexCapture rawUrl with
  | some cap => some ("https:" ++ cap)
  | none => none

/-- The literal opening of `LICENSE_REGEX` = `<div id="#lic-0">(.*)</div>`. -/
def licOpenTag : List Char :=
  "<div id=\"#lic-0\">".data

/-- The literal closing of `LICENSE_REGEX`. -/
def licCloseTag : List Char :=
  "</div>".data

/-- Backtracking for `(.*)</div>` from a fixed start: the greedy `(.*)`
(which cannot cross a newline) extends to the last `</div>` reachable
without a newline; returns the captured content. -/
def licContent : List Char → Option (List Char)
  | [] => none
  | c :: rest =>
    if c = '\n' then none
    else
      match licContent rest with
      | some a => some (c :: a)
      | none => if licCloseTag.isPrefixOf (c :: rest) then some [] else none

/-- `LICENSE_REGEX.captures`: leftmost match — try each start position in
order, matching the literal opening tag there and then `(.*)</div>`. -/
def licScan : List Char → Option (List Char)
  | [] => none
  | c :: rest =>
    match (if licOpenTag.isPrefixOf (c :: rest)
           then licContent ((c :: rest).drop licOpenTag.length)
           else none) with
    | some a => some a
    | none => licScan rest

/-- Capture group 1 of `LICENSE_REGEX` on a fetched license page. -/
def licenseRegexCapture (s : String) : Option String :=
  match licScan s.data with
  | some l => some (String.mk l)
  | none => none

/-- `report/error.rs` `ReportError`, plus the transport failures that
`anyhow` wraps at the call sites of `report/mod.rs` (a transport error
carries the URL being fetched). -/
inductive RunError where
  | invalidRepoUrl
  | transport (url : String)
  | packageFetchError (msg : String)
  | parseError (msg : String)
  | worksheetError (msg : String)
deriving DecidableEq

/-- One worksheet cell written by `write_string(row, col, content)`. -/
structure Cell where
  row : Nat
  col : Nat
  content : String
deriving DecidableEq

/-- `report/mod.rs` `validate_repository_url`: capture with `REPO_REGEX`
(else `InvalidRepoUrl`), build `https:{capture}`, request it (a transport
error is surfaced), and replace the candidate with the response's final URL
exactly when the status is `200 OK`. -/
def validateRepositoryUrl (net : String → Option (Nat × String))
    (rawUrl : String) : Except RunError String :=
  match repoRegexCapture rawUrl with
  | none => .error .invalidRepoUrl
  | some cap =>
    match net ("https:" ++ cap) with
    | none => .error (.transport ("https:" ++ cap))
    | some (status, finalUrl) =>
      .ok (if status = 200 then finalUrl else "https:" ++ cap)

/-- `report/mod.rs` `find_and_write_license_url`: probe
`{repoUrl}/blob/master/{file}` for each license file name in order; a
transport error propagates, a `200 OK` writes the hyperlink cell and stops,
any other status moves on; exhaustion writes nothing. -/
def findAndWriteLicenseUrl (net : String → Option (Nat × String)) (row : Nat)
    (repoUrl : String) : List String → Except RunError (List Cell)
  | [] => .ok []
  | f :: rest =>
    match net (repoUrl ++ "/blob/master/" ++ f) with
    | none => .error (.transport (repoUrl ++ "/blob/master/" ++ f))
    | some (status, _) =>
      if status = 200 then .ok [⟨row, 4, repoUrl ++ "/blob/master/" ++ f⟩]
      else findAndWriteLicenseUrl net row repoUrl rest

/-- `report/mod.rs` `process_js_dependency`: a failed registry fetch/parse is
logged and the function returns `Ok` with nothing written; otherwise the
repository URL is validated (errors propagate), the four info cells are
written (`write_js_dependency_info`), and the license probe runs (errors
propagate, after the info cells are already written).  The result pairs the
cells written for this row with the error returned, if any. -/
def processJsDependency (fetchRes : Except RunError PackageInfo)
    (net : String → Option (Nat × String)) (licenseFiles : List String)
    (row : Nat) : List Cell × Option RunError :=
  match fetchRes with
  | .error _ => ([], none)
  | .ok pi =>
    match validateRepositoryUrl net pi.repository.url with
    | .error e => ([], some e)
    | .ok repoUrl =>
      let infoCells : List Cell :=
        [⟨row, 0, pi.name⟩, ⟨row, 1, pi.version⟩,
         ⟨row, 2, pi.homepage⟩, ⟨row, 3, pi.license⟩]
      match findAndWriteLicenseUrl net row repoUrl licenseFiles with
      | .error e => (infoCells, some e)
      | .ok licCells => (infoCells ++ licCells, none)

/-- `report/mod.rs` `generate_js_report`: enumerate the dependencies from
row 1 (row 0 is the header), calling `process_js_dependency` on each; the
`?` operator wraps a failure with the dependency's name and aborts the
loop.  Returns the per-dependency cells written, in order, and the error
that ended the run, if any. -/
def generateJsReport (fetch : DepsEntry → Except RunError PackageInfo)
    (net : String → Option (Nat × String)) (licenseFiles : List String) :
    Nat → List DepsEntry → List (String × List Cell) × Option (String × RunError)
  | _, [] => ([], none)
  | row, d :: rest =>
    match processJsDependency (fetch d) net licenseFiles row with
    | (cs, some e) => ([(d.name, cs)], some (d.name, e))
    | (cs, none) =>
      let r := generateJsReport fetch net licenseFiles (row + 1) rest
      ((d.name, cs) :: r.1, r.2)

/-- `report/mod.rs` `process_go_dependency`: `write_go_dependency_info`
writes three cells with no network call, then `fetch_and_write_go_license`
fetches `https://pkg.go.dev/{name}?tab=licenses` (a transport error
propagates); on `200 OK` a `LICENSE_REGEX` match writes the license cells,
no match only logs; any other status only logs. -/
def processGoDependency (net : String → Option (Nat × String)) (row : Nat)
    (dep : DepsEntry) : List Cell × Option RunError :=
  let infoCells : List Cell :=
    [⟨row, 0, dep.name⟩, ⟨row, 1, dep.version⟩,
     ⟨row, 2, "https://pkg.go.dev/" ++ dep.name⟩]
  match net ("https://pkg.go.dev/" ++ dep.name ++ "?tab=licenses") with
  | none =>
    (infoCells, some (.transport ("https://pkg.go.dev/" ++ dep.name ++ "?tab=licenses")))
  | some (status, body) =>
    if status = 200 then
      match licenseRegexCapture body with
      | some lic =>
        (infoCells ++ [⟨row, 3, lic⟩,
          ⟨row, 4, "https://pkg.go.dev/" ++ dep.name ++ "?tab=licenses"⟩], none)
      | none => (infoCells, none)
    else (infoCells, none)

/-- `report/mod.rs` `generate_go_report`: same orchestration shape as the
package pipeline — the `?` operator wraps a per-dependency failure with the
dependency's name and aborts the loop. -/
def generateGoReport (net : String → Option (Nat × String)) :
    Nat → List DepsEntry → List (String × List Cell) × Option (String × RunError)
  | _, [] => ([], none)
  | row, d :: rest =>
    match processGoDependency net row d with
    | (cs, some e) => ([(d.name, cs)], some (d.name, e))
    | (cs, none) =>
      let r := generateGoReport net (row + 1) rest
      ((d.name, cs) :: r.1, r.2)

/-- The last surviving version for `name` in one `Require`-spec sequence
(the value `extract_dependencies` leaves for that name). -/
def lastVer (n : String) (specs : List (String × String)) : Option String :=
  specs.foldl (fun o p => if p.1 = n then some p.2 else o) none

/-- The last surviving version for `name` across all `Require` blocks of one
parsed module manifest. -/
def lastReqVer (n : String) (ds : List GoDirective) : Option String :=
  ds.foldl
    (fun o d =>
      match d with
      | .require specs => specs.foldl (fun o p => if p.1 = n then some p.2 else o) o
      | .other => o) none

/-- The last entry for `name` in one package-manifest map that survives the
skip filter (its raw version string, before any transformation). -/
def lastKept (sk : String → Bool) (n : String)
    (l : List (String × String)) : Option String :=
  l.foldl (fun o p => if sk p.1 = false ∧ p.1 = n then some p.2 else o) none

/-- Folding a last-occurrence accumulator from an arbitrary start is the
fold from `none` with the start as fallback, whenever each single step has
that property. -/
theorem foldl_last_from {α : Type} (step : Option String → α → Option String)
    (hstep : ∀ (o : Option String) (a : α),
      step o a = match step none a with | some v => some v | none => o) :
    ∀ (l : List α) (o : Option String),
      l.foldl step o
        = match l.foldl step none with | some v => some v | none => o := by
  intro l
  induction l with
  | nil => intro o; rfl
  | cons a l ih =>
    intro o
    simp only [List.foldl]
    rw [ih (step o a), ih (step none a)]
    cases h : l.foldl step none with
    | some v => rfl
    | none => exact hstep o a

/-- `lastVer` as a fallback-style fold from any start value. -/
theorem lastVer_from (n : String) (specs : List (String × String))
    (o : Option String) :
    specs.foldl (fun o p => if p.1 = n then some p.2 else o) o
      = match lastVer n specs with | some v => some v | none => o := by
  refine foldl_last_from _ ?_ specs o
  intro o p
  by_cases h : p.1 = n
  · simp [h]
  · simp [h]

/-- `lastKept` as a fallback-style fold from any start value. -/
theorem lastKept_from (sk : String → Bool) (n : String)
    (l : List (String × String)) (o : Option String) :
    l.foldl (fun o p => if sk p.1 = false ∧ p.1 = n then some p.2 else o) o
      = match lastKept sk n l with | some v => some v | none => o := by
  refine foldl_last_from _ ?_ l o
  intro o p
  by_cases h : sk p.1 = false ∧ p.1 = n
  · obtain ⟨h1, h2⟩ := h
    subst h2
    simp [h1]
  · simp [h]

/-- `lastReqVer` as a fallback-style fold from any start value. -/
theorem lastReqVer_from (n : String) (ds : List GoDirective)
    (o : Option String) :
    ds.foldl
      (fun o d =>
        match d with
        | .require specs =>
          specs.foldl (fun o p => if p.1 = n then some p.2 else o) o
        | .other => o) o
      = match lastReqVer n ds with | some v => some v | none => o := by
  refine foldl_last_from _ ?_ ds o
  intro o d
  cases d with
  | require specs => exact lastVer_from n specs o
  | other => rfl

/-- Unfolding `lastReqVer` over a leading `Require` block. -/
theorem lastReqVer_cons_require (n : String) (specs : List (String × String))
    (l : List GoDirective) :
    lastReqVer n (.require specs :: l)
      = match lastReqVer n l with
        | some v => some v
        | none => lastVer n specs := by
  have h := lastReqVer_from n l (lastVer n specs)
  exact h

/-- Lookup after the `Require`-spec insertion loop of
`extract_dependencies`: the last spec for the name wins, otherwise the
mapping is untouched. -/
theorem specsFold_lookup (n : String) :
    ∀ (specs : List (String × String)) (m : DepMap),
      (specs.foldl (fun a p => insertDep a p.1 ⟨p.1, p.2⟩) m) n
        = match lastVer n specs with | some v => some ⟨n, v⟩ | none => m n := by
  intro specs
  induction specs with
  | nil => intro m; rfl
  | cons p l ih =>
    intro m
    simp only [List.foldl]
    rw [ih]
    have h2 := lastVer_from n l (if p.1 = n then some p.2 else none)
    have hcons : lastVer n (p :: l)
        = match lastVer n l with
          | some v => some v
          | none => if p.1 = n then some p.2 else none := h2
    rw [hcons]
    cases hl : lastVer n l with
    | some v => rfl
    | none =>
      by_cases hp : p.1 = n
      · simp [insertDep, hp]
      · have hn : ¬ n = p.1 := fun h => hp h.symm
        simp [insertDep, hp, hn]

/-- Lookup after either insertion loop of `process_dependencies` (the value
stored is the transformed version of the last surviving entry). -/
theorem jsFold_lookup (sk : String → Bool) (g : String → String) (n : String) :
    ∀ (l : List (String × String)) (m : DepMap),
      (l.foldl
        (fun acc p =>
          if sk p.1 then acc else insertDep acc p.1 ⟨p.1, g p.2⟩) m) n
        = match lastKept sk n l with
          | some v => some ⟨n, g v⟩
          | none => m n := by
  intro l
  induction l with
  | nil => intro m; rfl
  | cons p l ih =>
    intro m
    simp only [List.foldl]
    rw [ih]
    have hcons : lastKept sk n (p :: l)
        = match lastKept sk n l with
          | some v => some v
          | none => if sk p.1 = false ∧ p.1 = n then some p.2 else none :=
      lastKept_from sk n l (if sk p.1 = false ∧ p.1 = n then some p.2 else none)
    rw [hcons]
    cases hl : lastKept sk n l with
    | some v => rfl
    | none =>
      by_cases hsk : sk p.1
      · simp [hsk]
      · rw [Bool.not_eq_true] at hsk
        by_cases hp : p.1 = n
        · subst hp
          simp [insertDep, hsk]
        · have hn : ¬ n = p.1 := fun h => hp h.symm
          simp [insertDep, hsk, hp, hn]

/-- Lookup after `process_dependencies` when both maps are present: the
peer loop runs after (and overwrites) the dependencies loop; peer versions
are stored verbatim, dependency versions caret-stripped. -/
theorem processDependencies_lookup (skip : List (String → Bool))
    (deps peers : List (String × String)) (m : DepMap) (n : String) :
    processDependencies skip ⟨some deps, some peers⟩ m n
      = match lastKept (shouldSkipDependency skip) n peers with
        | some v => some ⟨n, v⟩
        | none =>
          match lastKept (shouldSkipDependency skip) n deps with
          | some v => some ⟨n, stripCaret v⟩
          | none => m n := by
  have hstep : processDependencies skip ⟨some deps, some peers⟩ m n
      = (peers.foldl
          (fun acc p =>
            if shouldSkipDependency skip p.1 then acc
            else insertDep acc p.1 ⟨p.1, p.2⟩)
          (deps.foldl
            (fun acc p =>
              if shouldSkipDependency skip p.1 then acc
              else insertDep acc p.1 ⟨p.1, stripCaret p.2⟩) m)) n := rfl
  rw [hstep, jsFold_lookup (shouldSkipDependency skip) (fun v => v) n peers]
  cases hp : lastKept (shouldSkipDependency skip) n peers with
  | some v => rfl
  | none => exact jsFold_lookup (shouldSkipDependency skip) stripCaret n deps m

/-- Lookup after `extract_dependencies` on one parsed module manifest: the
last `Require` spec for the name wins, otherwise the mapping is untouched. -/
theorem extractDependencies_lookup (n : String) :
    ∀ (ds : List GoDirective) (m : DepMap),
      extractDependencies ds m n
        = match lastReqVer n ds with | some v => some ⟨n, v⟩ | none => m n := by
  intro ds
  induction ds with
  | nil => intro m; rfl
  | cons d l ih =>
    intro m
    cases d with
    | other =>
      have hl : extractDependencies (.other :: l) m n = extractDependencies l m n := rfl
      have hr : lastReqVer n (GoDirective.other :: l) = lastReqVer n l := rfl
      rw [hl, ih, hr]
    | require specs =>
      have hl : extractDependencies (.require specs :: l) m n
          = extractDependencies l
              (specs.foldl (fun a p => insertDep a p.1 ⟨p.1, p.2⟩) m) n := rfl
      rw [hl, ih, lastReqVer_cons_require]
      cases hr : lastReqVer n l with
      | some v => rfl
      | none => exact specsFold_lookup n specs m

/-- A name matching a skip pattern never survives either insertion loop. -/
theorem lastKept_of_skip (sk : String → Bool) (n : String) (h : sk n = true) :
    ∀ l, lastKept sk n l = none := by
  have key : ∀ (l : List (String × String)),
      l.foldl (fun o p => if sk p.1 = false ∧ p.1 = n then some p.2 else o) none
        = none := by
    intro l
    induction l with
    | nil => rfl
    | cons p t ih =>
      simp only [List.foldl]
      have hc : ¬(sk p.1 = false ∧ p.1 = n) := by
        rintro ⟨h1, h2⟩
        rw [h2, h] at h1
        exact Bool.noConfusion h1
      rw [if_neg hc]
      exact ih
  exact key

/-- `strip_prefix("^")` on a string with a leading caret removes exactly
that caret. -/
theorem stripCaret_caret (w : String) : stripCaret ("^" ++ w) = w := rfl

/-- `strip_prefix("^")` on a string with no leading caret is the identity. -/
theorem stripCaret_no_caret (v : String) (h : v.data.head? ≠ some '^') :
    stripCaret v = v := by
  simp only [stripCaret]
  cases hd : v.data with
  | nil => rfl
  | cons c cs =>
    rw [hd] at h
    have hc : ¬ c = '^' := by
      intro hcc
      exact h (by rw [hcc]; rfl)
    show (if c = '^' then String.mk cs else v) = v
    rw [if_neg hc]

/-- `is_valid_go_mod` accepts exactly the non-directory, non-excluded
entries named `go.mod`; the hidden-name test concerns only the entry's own
base name and is subsumed by the fixed file name. -/
theorem isValidGoMod_iff (excl : List (String → Bool)) (e : DirEntry) :
    isValidGoMod excl e = true
      ↔ e.isDir = false
        ∧ excl.any (fun p => p (pathString e.path)) = false
        ∧ e.name = "go.mod" := by
  constructor
  · intro h
    simp only [isValidGoMod] at h
    split_ifs at h with h1 h2
    refine ⟨?_, ?_, by simpa using h⟩
    · cases hd : e.isDir
      · rfl
      · exact absurd (by simp [hd]) h1
    · cases ha : excl.any (fun p => p (pathString e.path))
      · rfl
      · exact absurd ha h2
  · rintro ⟨h1, h2, h3⟩
    have hc1 : ¬((e.isDir || hiddenName e.name) = true) := by
      rw [h1, h3]; decide
    have hc2 : ¬((excl.any fun p => p (pathString e.path)) = true) := by
      simp [h2]
    simp only [isValidGoMod]
    rw [if_neg hc1, if_neg hc2, h3]
    decide

/-- `is_valid_package_json` accepts exactly the non-directory, non-excluded
entries named `package.json`. -/
theorem isValidPackageJson_iff (excl : List (String → Bool)) (e : DirEntry) :
    isValidPackageJson excl e = true
      ↔ e.isDir = false
        ∧ excl.any (fun p => p (pathString e.path)) = false
        ∧ e.name = "package.json" := by
  constructor
  · intro h
    simp only [isValidPackageJson] at h
    split_ifs at h with h1 h2
    refine ⟨?_, ?_, by simpa using h⟩
    · cases hd : e.isDir
      · rfl
      · exact absurd (by simp [hd]) h1
    · cases ha : excl.any (fun p => p (pathString e.path))
      · rfl
      · exact absurd ha h2
  · rintro ⟨h1, h2, h3⟩
    have hc1 : ¬((e.isDir || hiddenName e.name) = true) := by
      rw [h1, h3]; decide
    have hc2 : ¬((excl.any fun p => p (pathString e.path)) = true) := by
      simp [h2]
    simp only [isValidPackageJson]
    rw [if_neg hc1, if_neg hc2, h3]
    decide

/-- C1 (amended): a manifest is discovered by either scanner exactly when
it is a non-directory walk entry whose full path matches no exclusion
pattern and whose own base name equals the fixed manifest filename — the
hidden-name test applies only to the entry's own base name, so manifest
files beneath hidden directories are still discovered and parsed. -/
theorem c1_manifest_discovery (excl : List (String → Bool)) (t : FsTree)
    (e : DirEntry) :
    (e ∈ goModFiles excl t
      ↔ e ∈ walkDir [] t ∧ e.isDir = false
        ∧ excl.any (fun p => p (pathString e.path)) = false
        ∧ e.name = "go.mod")
    ∧ (e ∈ packageJsonFiles excl t
      ↔ e ∈ walkDir [] t ∧ e.isDir = false
        ∧ excl.any (fun p => p (pathString e.path)) = false
        ∧ e.name = "package.json") := by
  constructor
  · rw [goModFiles, List.mem_filter, isValidGoMod_iff]
  · rw [packageJsonFiles, List.mem_filter, isValidPackageJson_iff]

/-- C1 counterexample: with no exclusion patterns, the scan of a tree whose
only manifest sits beneath the hidden directory `.hidden` discovers exactly
that manifest — an entry with a hidden ancestor directory. -/
theorem c1_hidden_dir_counterexample :
    (goModFiles [] (.dir "root" [.dir ".hidden" [.file "go.mod"]])).map
        (fun e => e.path)
      = [["root", ".hidden", "go.mod"]]
    ∧ (goModFiles [] (.dir "root" [.dir ".hidden" [.file "go.mod"]])).any
        (fun e => e.path.dropLast.any hiddenName) = true := by
  constructor
  · rfl
  · decide

/-- C1 witness: the characterization applied at the hidden-directory tree
yields the discovery of `root/.hidden/go.mod`. -/
theorem c1_manifest_discovery_witness :
    (⟨["root", ".hidden", "go.mod"], "go.mod", false⟩ : DirEntry)
      ∈ goModFiles [] (.dir "root" [.dir ".hidden" [.file "go.mod"]]) :=
  ((c1_manifest_discovery [] (.dir "root" [.dir ".hidden" [.file "go.mod"]])
      ⟨["root", ".hidden", "go.mod"], "go.mod", false⟩).1).mpr
    ⟨by decide, rfl, rfl, rfl⟩

/-- C2: the claim says a peer dependency is stored even when the file has
no top-level `dependencies` map; the code's early return drops the
`peerDependencies` map entirely in that case (first conjunct), while the
same peer entry is stored verbatim as soon as a `dependencies` map — even
an empty one — is present (second conjunct). -/
theorem c2_missing_deps_drops_peers :
    processDependencies [] ⟨none, some [("react", "18.2.0")]⟩
        (fun _ => none) "react" = none
    ∧ processDependencies [] ⟨some [], some [("react", "18.2.0")]⟩
        (fun _ => none) "react" = some ⟨"react", "18.2.0"⟩ :=
  ⟨rfl, by decide⟩

/-- C3 (amended): a per-dependency enrichment failure is wrapped with the
dependency's name and aborts the run — the remaining dependencies are not
processed — in both pipelines; only a registry fetch/parse failure in the
package pipeline is a soft skip after which the remaining dependencies are
still processed. -/
theorem c3_per_dependency_failure_aborts
    (net : String → Option (Nat × String)) (lf : List String)
    (fetch : DepsEntry → Except RunError PackageInfo) (row : Nat)
    (d : DepsEntry) (rest : List DepsEntry) (cs : List Cell) (e : RunError) :
    (processGoDependency net row d = (cs, some e) →
      generateGoReport net row (d :: rest) = ([(d.name, cs)], some (d.name, e)))
    ∧ (processJsDependency (fetch d) net lf row = (cs, some e) →
      generateJsReport fetch net lf row (d :: rest)
        = ([(d.name, cs)], some (d.name, e)))
    ∧ (fetch d = .error e →
      generateJsReport fetch net lf row (d :: rest)
        = ((d.name, []) :: (generateJsReport fetch net lf (row + 1) rest).1,
           (generateJsReport fetch net lf (row + 1) rest).2)) := by
  refine ⟨?_, ?_, ?_⟩
  · intro h
    simp [generateGoReport, h]
  · intro h
    simp [generateJsReport, h]
  · intro h
    simp [generateJsReport, h, processJsDependency]

/-- C3 counterexample: in the module pipeline with every network call a
transport error, the failure on the first dependency (wrapped with its
name) aborts the run — the second dependency is never processed. -/
theorem c3_abort_counterexample :
    (generateGoReport (fun _ => none) 1
        [⟨"modA", "v1.0.0"⟩, ⟨"modB", "v2.0.0"⟩]).1.map Prod.fst = ["modA"]
    ∧ (generateGoReport (fun _ => none) 1
        [⟨"modA", "v1.0.0"⟩, ⟨"modB", "v2.0.0"⟩]).2
      = some ("modA", .transport "https://pkg.go.dev/modA?tab=licenses") := by
  decide

/-- C3 witness: the abort lemma applied to a concrete transport failure on
the first of two module dependencies. -/
theorem c3_failure_aborts_witness :
    processGoDependency (fun _ => none) 1 ⟨"modA", "v1.0.0"⟩
      = ([⟨1, 0, "modA"⟩, ⟨1, 1, "v1.0.0"⟩, ⟨1, 2, "https://pkg.go.dev/modA"⟩],
         some (.transport "https://pkg.go.dev/modA?tab=licenses"))
    ∧ generateGoReport (fun _ => none) 1 [⟨"modA", "v1.0.0"⟩, ⟨"modB", "v2.0.0"⟩]
      = ([("modA",
           [⟨1, 0, "modA"⟩, ⟨1, 1, "v1.0.0"⟩, ⟨1, 2, "https://pkg.go.dev/modA"⟩])],
         some ("modA", .transport "https://pkg.go.dev/modA?tab=licenses")) :=
  ⟨by decide,
   (c3_per_dependency_failure_aborts (fun _ => none) []
      (fun _ => .error .invalidRepoUrl) 1 ⟨"modA", "v1.0.0"⟩ [⟨"modB", "v2.0.0"⟩]
      [⟨1, 0, "modA"⟩, ⟨1, 1, "v1.0.0"⟩, ⟨1, 2, "https://pkg.go.dev/modA"⟩]
      (.transport "https://pkg.go.dev/modA?tab=licenses")).1 (by decide)⟩

/-- C4 counterexample: on `git+ssh://git@github.com:user/repo.git` the
extraction step does not produce `https://user/repo`. -/
theorem c4_ssh_counterexample :
    repoCandidate "git+ssh://git@github.com:user/repo.git"
      ≠ some "https://user/repo" := by
  decide

/-- C4 (amended): on the raw repository URL
`git+ssh://git@github.com:user/repo.git` the greedy capture takes the text
after the last colon, so prepending the scheme yields `https:user/repo`
(no slashes are inserted; a double slash appears only when the captured
text itself starts with `//`). -/
theorem c4_ssh_candidate :
    repoCandidate "git+ssh://git@github.com:user/repo.git"
      = some "https:user/repo" := by
  decide

/-- C5: for a stored `dependencies` entry, a version with a leading caret
is stored with exactly that one caret removed and a version without one is
stored unchanged; a stored peer-dependency version is always stored
unmodified (the `lastKept` hypotheses select the entry that survives skip
filtering and later overwrites). -/
theorem c5_caret_handling (skip : List (String → Bool))
    (deps peers : List (String × String)) (m : DepMap) (n : String) :
    (∀ w : String,
      lastKept (shouldSkipDependency skip) n deps = some ("^" ++ w) →
      lastKept (shouldSkipDependency skip) n peers = none →
      processDependencies skip ⟨some deps, some peers⟩ m n = some ⟨n, w⟩)
    ∧ (∀ v : String, v.data.head? ≠ some '^' →
      lastKept (shouldSkipDependency skip) n deps = some v →
      lastKept (shouldSkipDependency skip) n peers = none →
      processDependencies skip ⟨some deps, some peers⟩ m n = some ⟨n, v⟩)
    ∧ (∀ v : String,
      lastKept (shouldSkipDependency skip) n peers = some v →
      processDependencies skip ⟨some deps, some peers⟩ m n = some ⟨n, v⟩) := by
  refine ⟨?_, ?_, ?_⟩
  · intro w h1 h2
    rw [processDependencies_lookup, h2, h1]
    show some (⟨n, stripCaret ("^" ++ w)⟩ : DepsEntry) = some ⟨n, w⟩
    rw [stripCaret_caret]
  · intro v hv h1 h2
    rw [processDependencies_lookup, h2, h1]
    show some (⟨n, stripCaret v⟩ : DepsEntry) = some ⟨n, v⟩
    rw [stripCaret_no_caret v hv]
  · intro v h1
    rw [processDependencies_lookup, h1]

/-- C5 witness: a caret version from `dependencies` is stored stripped and
a caret version from `peerDependencies` is stored verbatim. -/
theorem c5_caret_handling_witness :
    lastKept (shouldSkipDependency []) "a" [("a", "^1.2.3")] = some ("^" ++ "1.2.3")
    ∧ lastKept (shouldSkipDependency []) "a" [("b", "^9.9.9")] = none
    ∧ processDependencies [] ⟨some [("a", "^1.2.3")], some [("b", "^9.9.9")]⟩
        (fun _ => none) "a" = some ⟨"a", "1.2.3"⟩
    ∧ processDependencies [] ⟨some [("a", "^1.2.3")], some [("b", "^9.9.9")]⟩
        (fun _ => none) "b" = some ⟨"b", "^9.9.9"⟩ :=
  ⟨by decide, by decide,
   (c5_caret_handling [] [("a", "^1.2.3")] [("b", "^9.9.9")]
      (fun _ => none) "a").1 "1.2.3" (by decide) (by decide),
   (c5_caret_handling [] [("a", "^1.2.3")] [("b", "^9.9.9")]
      (fun _ => none) "b").2.2 "^9.9.9" (by decide)⟩

/-- C6: a name matching a skip pattern is left exactly as the accumulated
mapping had it — no record is created and no previous record is
overwritten — and the same filter protects against both the `dependencies`
and the `peerDependencies` loop, whatever the manifest's shape. -/
theorem c6_skip_creates_nothing (skip : List (String → Bool))
    (pj : PackageJson) (m : DepMap) (n : String)
    (h : shouldSkipDependency skip n = true) :
    processDependencies skip pj m n = m n := by
  obtain ⟨d, p⟩ := pj
  cases d with
  | none => rfl
  | some deps =>
    cases p with
    | none =>
      calc processDependencies skip ⟨some deps, none⟩ m n
          = (deps.foldl
              (fun acc p =>
                if shouldSkipDependency skip p.1 then acc
                else insertDep acc p.1 ⟨p.1, stripCaret p.2⟩) m) n := rfl
        _ = m n := by
            rw [jsFold_lookup (shouldSkipDependency skip) stripCaret n deps m,
              lastKept_of_skip (shouldSkipDependency skip) n h deps]
    | some peers =>
      rw [processDependencies_lookup,
        lastKept_of_skip (shouldSkipDependency skip) n h peers,
        lastKept_of_skip (shouldSkipDependency skip) n h deps]

/-- C6 witness: with a skip pattern matching `left-pad`, processing a
manifest that lists `left-pad` in both maps leaves the previously
accumulated record for `left-pad` unchanged. -/
theorem c6_skip_creates_nothing_witness :
    shouldSkipDependency [fun s => s == "left-pad"] "left-pad" = true
    ∧ processDependencies [fun s => s == "left-pad"]
        ⟨some [("left-pad", "^1.0.0")], some [("left-pad", "2.0.0")]⟩
        (fun q => if q = "left-pad" then some ⟨"left-pad", "0.0.1"⟩ else none)
        "left-pad"
      = some ⟨"left-pad", "0.0.1"⟩ :=
  ⟨by decide,
   (c6_skip_creates_nothing [fun s => s == "left-pad"]
      ⟨some [("left-pad", "^1.0.0")], some [("left-pad", "2.0.0")]⟩
      (fun q => if q = "left-pad" then some ⟨"left-pad", "0.0.1"⟩ else none)
      "left-pad" (by decide)).trans (by decide)⟩

/-- C7: a failed registry fetch or unparsable registry response makes
`process_js_dependency` write zero cells and return successfully, and the
orchestrator then continues with the remaining dependencies. -/
theorem c7_fetch_failure_soft_skip (net : String → Option (Nat × String))
    (lf : List String) (row : Nat) (e : RunError)
    (fetch : DepsEntry → Except RunError PackageInfo) (d : DepsEntry)
    (rest : List DepsEntry) :
    processJsDependency (.error e) net lf row = ([], none)
    ∧ (fetch d = .error e →
      generateJsReport fetch net lf row (d :: rest)
        = ((d.name, []) :: (generateJsReport fetch net lf (row + 1) rest).1,
           (generateJsReport fetch net lf (row + 1) rest).2)) := by
  refine ⟨rfl, ?_⟩
  intro h
  simp [generateJsReport, h, processJsDependency]

/-- C7 witness: a run whose every registry lookup fails writes no cells for
the first dependency and still reaches the rest of the list. -/
theorem c7_fetch_failure_soft_skip_witness :
    generateJsReport (fun _ => .error (.packageFetchError "404"))
        (fun _ => none) [] 1 [⟨"a", "1.0.0"⟩, ⟨"b", "2.0.0"⟩]
      = (("a", [])
          :: (generateJsReport (fun _ => .error (.packageFetchError "404"))
               (fun _ => none) [] 2 [⟨"b", "2.0.0"⟩]).1,
         (generateJsReport (fun _ => .error (.packageFetchError "404"))
           (fun _ => none) [] 2 [⟨"b", "2.0.0"⟩]).2) :=
  (c7_fetch_failure_soft_skip (fun _ => none) [] 1 (.packageFetchError "404")
     (fun _ => .error (.packageFetchError "404")) ⟨"a", "1.0.0"⟩
     [⟨"b", "2.0.0"⟩]).2 rfl

/-- C8: when the fetched metadata's raw repository URL does not match
`REPO_REGEX`, `process_js_dependency` returns the `InvalidRepoUrl` error to
its caller — the orchestrator wraps it with the dependency name and aborts,
unlike the logged soft-skip of fetch/parse failures. -/
theorem c8_invalid_repo_url_propagates (pi : PackageInfo)
    (net : String → Option (Nat × String)) (lf : List String) (row : Nat)
    (fetch : DepsEntry → Except RunError PackageInfo) (d : DepsEntry)
    (rest : List DepsEntry)
    (h : repoRegexCapture pi.repository.url = none) :
    processJsDependency (.ok pi) net lf row = ([], some .invalidRepoUrl)
    ∧ (fetch d = .ok pi →
      generateJsReport fetch net lf row (d :: rest)
        = ([(d.name, [])], some (d.name, .invalidRepoUrl))) := by
  have hv : validateRepositoryUrl net pi.repository.url
      = .error .invalidRepoUrl := by
    simp [validateRepositoryUrl, h]
  refine ⟨?_, ?_⟩
  · simp [processJsDependency, hv]
  · intro hf
    simp [generateJsReport, hf, processJsDependency, hv]

/-- C8 witness: a repository URL that `REPO_REGEX` rejects makes the
per-dependency step fail with `InvalidRepoUrl` instead of soft-skipping. -/
theorem c8_invalid_repo_url_witness :
    repoRegexCapture "not-a-url" = none
    ∧ processJsDependency
        (.ok ⟨"a", "1.0.0", "MIT", "https://example.org", ⟨"bugs"⟩, ⟨"not-a-url"⟩⟩)
        (fun _ => none) [] 1
      = ([], some .invalidRepoUrl) :=
  ⟨by decide,
   (c8_invalid_repo_url_propagates
      ⟨"a", "1.0.0", "MIT", "https://example.org", ⟨"bugs"⟩, ⟨"not-a-url"⟩⟩
      (fun _ => none) [] 1 (fun _ => .error .invalidRepoUrl) ⟨"a", "1.0.0"⟩ []
      (by decide)).1⟩

/-- C9: across the files of one scan, when two files both declare a module
name (each file's last `Require` occurrence giving its version), the final
accumulated entry for that name carries the later-processed file's
version, with no merging. -/
theorem c9_later_file_wins (pre : List (List GoDirective))
    (f1 f2 : List GoDirective) (n v1 v2 : String)
    (_h1 : lastReqVer n f1 = some v1) (h2 : lastReqVer n f2 = some v2) :
    goParseFiles (pre ++ [f1, f2]) n = some ⟨n, v2⟩ := by
  have hsplit : goParseFiles (pre ++ [f1, f2])
      = extractDependencies f2 (extractDependencies f1 (goParseFiles pre)) := by
    simp only [goParseFiles, List.foldl_append, List.foldl]
  rw [hsplit, extractDependencies_lookup, h2]

/-- C9 witness: two module manifests declaring `m` at `v1.0.0` and
`v2.0.0`; the mapping ends at `v2.0.0`. -/
theorem c9_later_file_wins_witness :
    lastReqVer "m" [GoDirective.require [("m", "v1.0.0")]] = some "v1.0.0"
    ∧ lastReqVer "m" [GoDirective.require [("m", "v2.0.0")]] = some "v2.0.0"
    ∧ goParseFiles [[GoDirective.require [("m", "v1.0.0")]],
        [GoDirective.require [("m", "v2.0.0")]]] "m" = some ⟨"m", "v2.0.0"⟩ :=
  ⟨by decide, by decide,
   c9_later_file_wins [] [.require [("m", "v1.0.0")]]
     [.require [("m", "v2.0.0")]] "m" "v1.0.0" "v2.0.0" (by decide) (by decide)⟩

/-- C10: after a candidate-URL request that completes without a transport
error, the candidate is replaced by the response's final URL exactly when
the status is `200`; any other status — success-class or not — keeps the
constructed candidate. -/
theorem c10_replacement_only_on_200 (net : String → Option (Nat × String))
    (rawUrl cap finalUrl : String) (status : Nat)
    (hc : repoRegexCapture rawUrl = some cap)
    (hn : net ("https:" ++ cap) = some (status, finalUrl)) :
    (status = 200 → validateRepositoryUrl net rawUrl = .ok finalUrl)
    ∧ (status ≠ 200 →
      validateRepositoryUrl net rawUrl = .ok ("https:" ++ cap)) := by
  constructor
  · intro h
    simp [validateRepositoryUrl, hc, hn, h]
  · intro h
    simp [validateRepositoryUrl, hc, hn, h]

/-- C10 witness: a `204 No Content` response (success-class but not `200`)
keeps the constructed candidate instead of the resolved URL. -/
theorem c10_replacement_only_on_200_witness :
    repoRegexCapture "git+https://github.com/u/a.git" = some "//github.com/u/a"
    ∧ (204 : Nat) ≠ 200
    ∧ validateRepositoryUrl
        (fun _ => some (204, "https://resolved.example/final"))
        "git+https://github.com/u/a.git"
      = .ok ("https:" ++ "//github.com/u/a") :=
  ⟨by decide, by decide,
   (c10_replacement_only_on_200
      (fun _ => some (204, "https://resolved.example/final"))
      "git+https://github.com/u/a.git" "//github.com/u/a"
      "https://resolved.example/final" 204 (by decide) (by decide)).2
     (by decide)⟩
